import Mathlib

/-
Verification of the data-preparation and configuration logic of
src/Task_2_FinGPT_Agents_Real_Life/task_2_finetune.ipynb.

The notebook has two pieces of in-scope logic:
  - cell-5, the dataset splitter: read the lines of data/finai_raw.jsonl,
    seed the stdlib RNG with 42, shuffle the lines, cut at int(0.8 * n),
    and write the two partitions (newline-joined, trailing newline) to
    data/train/finai_train.jsonl and data/test/finai_test.jsonl; if the raw
    file is absent, print a message and do nothing else.
  - cell-7, the config merger: load lora/finetune_configs.json as a JSON
    mapping, assign one named entry, and dump the mapping back.
Cell-9 then invokes the external fine-tuning tool with one positional
argument (a configuration key).

The embedding below models:
  - the CPython Mersenne Twister (_randommodule.c) and random.shuffle
    (Fisher-Yates with _randbelow_with_getrandbits), word-for-word on
    Nat with explicit mod 2^32;
  - the IEEE-754 binary64 computation int(0.8 * n) exactly: 0.8 parses to
    the double 3602879701896397 / 2^52, the integer n is rounded to 53
    significant bits, the product is rounded to 53 significant bits
    (round to nearest, ties to even), and int truncates;
  - the filesystem effect of cell-5 as a record of the files and
    directories the cell can touch;
  - the config mapping as an insertion-ordered association list with
    Python dict assignment semantics, and the cell-7 error path: a file
    whose content is not a valid JSON mapping makes json.load (or the
    subscript assignment) raise before any write happens.
-/

/-! ### Mersenne Twister (CPython _randommodule.c), exact 32-bit model -/

def mask32 (x : ℕ) : ℕ := x % 4294967296

/-- State of the CPython Mersenne Twister: 624 32-bit words and the
position of the next word to hand out. -/
structure MTState where
  words : List ℕ
  idx : ℕ

/-- Tail of init_genrand: mt[i] = (1812433253 * (mt[i-1] xor (mt[i-1] >> 30)) + i) mod 2^32. -/
def initGenrandAux : ℕ → ℕ → ℕ → List ℕ
  | 0, _, _ => []
  | fuel+1, i, prev =>
    let cur := mask32 (1812433253 * (prev ^^^ (prev >>> 30)) + i)
    cur :: initGenrandAux fuel (i + 1) cur

def initGenrand (s : ℕ) : List ℕ :=
  mask32 s :: initGenrandAux 623 1 (mask32 s)

/-- One iteration of the first init_by_array loop. -/
def ibaStep1 (key : List ℕ) (st : List ℕ × ℕ × ℕ) : List ℕ × ℕ × ℕ :=
  let mt := st.1
  let i := st.2.1
  let j := st.2.2
  let prev := mt.getD (i - 1) 0
  let cur := mask32 ((mt.getD i 0 ^^^ mask32 ((prev ^^^ (prev >>> 30)) * 1664525)) + key.getD j 0 + j)
  let mt2 := mt.set i cur
  let j2 := if j + 1 ≥ key.length then 0 else j + 1
  if i + 1 ≥ 624 then (mt2.set 0 (mt2.getD 623 0), 1, j2) else (mt2, i + 1, j2)

/-- One iteration of the second init_by_array loop; the uint32 subtraction
of the index i is (x + 2^32 - i) mod 2^32. -/
def ibaStep2 (st : List ℕ × ℕ) : List ℕ × ℕ :=
  let mt := st.1
  let i := st.2
  let prev := mt.getD (i - 1) 0
  let cur := mask32 ((mt.getD i 0 ^^^ mask32 ((prev ^^^ (prev >>> 30)) * 1566083941)) + (4294967296 - i))
  let mt2 := mt.set i cur
  if i + 1 ≥ 624 then (mt2.set 0 (mt2.getD 623 0), 1) else (mt2, i + 1)

def iterSteps {α : Type} (f : α → α) : ℕ → α → α
  | 0, a => a
  | n+1, a => iterSteps f n (f a)

def initByArray (key : List ℕ) : List ℕ :=
  let mt0 := initGenrand 19650218
  let r1 := iterSteps (ibaStep1 key) (max 624 key.length) (mt0, 1, 0)
  let r2 := iterSteps ibaStep2 623 (r1.1, r1.2.1)
  r2.1.set 0 2147483648

/-- The 32-bit little-endian words of a nonnegative integer seed, as
CPython random_seed builds the init_by_array key. -/
def keyWordsAux : ℕ → ℕ → List ℕ
  | 0, _ => []
  | f+1, n => if n = 0 then [] else n % 4294967296 :: keyWordsAux f (n / 4294967296)

def keyWords (n : ℕ) : List ℕ := if n = 0 then [0] else keyWordsAux n n

/-- random.seed(n) for a nonnegative int seed; the index 624 forces a
twist before the first output word. -/
def seedMT (n : ℕ) : MTState := ⟨initByArray (keyWords n), 624⟩

/-- One entry of the genrand_uint32 refill loop (MT recurrence with
M = 397, matrix constant 0x9908b0df). -/
def twistOnce (mt : List ℕ) (kk : ℕ) : List ℕ :=
  let y := (mt.getD kk 0 &&& 2147483648) ||| (mt.getD ((kk + 1) % 624) 0 &&& 2147483647)
  let v := mt.getD ((kk + 397) % 624) 0 ^^^ (y >>> 1) ^^^ (if y % 2 = 1 then 2567483615 else 0)
  mt.set kk v

def twist (mt : List ℕ) : List ℕ := (List.range 624).foldl twistOnce mt

/-- MT19937 output tempering. -/
def temper (y : ℕ) : ℕ :=
  let y1 := y ^^^ (y >>> 11)
  let y2 := y1 ^^^ ((y1 <<< 7) &&& 2636928640)
  let y3 := y2 ^^^ ((y2 <<< 15) &&& 4022730752)
  y3 ^^^ (y3 >>> 18)

def genrand (s : MTState) : ℕ × MTState :=
  if s.idx ≥ 624 then
    let w := twist s.words
    (temper (w.getD 0 0), ⟨w, 1⟩)
  else
    (temper (s.words.getD s.idx 0), ⟨s.words, s.idx + 1⟩)

/-- getrandbits(k) for 0 < k ≤ 32: one output word shifted down. -/
def getrandbits (k : ℕ) (s : MTState) : ℕ × MTState :=
  let r := genrand s
  (r.1 >>> (32 - k), r.2)

/-! ### Exact binary64 model of int(0.8 * n) -/

/-- Fueled floor-log2; fuel bounds the number of halvings, so fuel f is
enough for any n < 2^f. -/
def blogAux : ℕ → ℕ → ℕ
  | 0, _ => 0
  | f+1, n => if n ≤ 1 then 0 else blogAux f (n / 2) + 1

/-- Fuel for blog: enough halvings for every number below 2^1200, far
beyond any value that can reach a finite double. -/
def blogFuel : ℕ := 1200

/-- Floor of log2 for n ≥ 1 (0 at 0). -/
def blog (n : ℕ) : ℕ := blogAux blogFuel n

/-- Python int.bit_length. -/
def bitLen (n : ℕ) : ℕ := if n = 0 then 0 else blog n + 1

/-- Round a nonnegative integer to 53 significant bits: round to nearest,
ties to even, exactly the IEEE-754 binary64 significand rounding. Values
below 2^53 are exact. -/
def rnd53 (m : ℕ) : ℕ :=
  if m < 9007199254740992 then m
  else if 2 * (m % 2 ^ (blog m - 52)) < 2 ^ (blog m - 52) then
    m / 2 ^ (blog m - 52) * 2 ^ (blog m - 52)
  else if 2 * (m % 2 ^ (blog m - 52)) > 2 ^ (blog m - 52) then
    (m / 2 ^ (blog m - 52) + 1) * 2 ^ (blog m - 52)
  else if m / 2 ^ (blog m - 52) % 2 = 0 then
    m / 2 ^ (blog m - 52) * 2 ^ (blog m - 52)
  else
    (m / 2 ^ (blog m - 52) + 1) * 2 ^ (blog m - 52)

/-- Significand of the double nearest 0.8, scaled by 2^52: the literal 0.8
in the notebook denotes the exact rational floatM / 2^52. -/
def floatM : ℕ := 3602879701896397

/-- n_train = int(0.8 * n) of cell-5, computed exactly: n is rounded to a
double, multiplied by the double 0.8 with one rounding of the significand,
and truncated; since the product is (rnd53 (rnd53 n * floatM)) / 2^52 with
a power-of-two denominator, truncation is Nat division by 2^52. -/
def nTrainFloat (n : ℕ) : ℕ := rnd53 (rnd53 n * floatM) / 4503599627370496

/-! ### random.shuffle (Fisher-Yates) and the cell-5 splitter -/

/-- Python parallel assignment x[i], x[j] = x[j], x[i]; out-of-range
indices never occur in shuffle, the fallback keeps the function total. -/
def listSwap {α : Type} (l : List α) (i j : ℕ) : List α :=
  match l[i]?, l[j]? with
  | some a, some b => (l.set i b).set j a
  | _, _ => l

/-- _randbelow_with_getrandbits rejection loop; the fuel only bounds the
number of rejected samples and is never reached in any run the theorems
below depend on (no theorem depends on the sampled values). -/
def randbelowAux (n k : ℕ) : ℕ → MTState → ℕ × MTState
  | 0, s => (0, s)
  | f+1, s =>
    let r := getrandbits k s
    if r.1 < n then r else randbelowAux n k f r.2

def randbelow (n : ℕ) (s : MTState) : ℕ × MTState :=
  if n = 0 then (0, s) else randbelowAux n (bitLen n) 1000000 s

/-- One iteration of random.shuffle: j = randbelow(i + 1), then swap at
i and j. -/
def shuffleStep {α : Type} (st : List α × MTState) (i : ℕ) : List α × MTState :=
  (listSwap st.1 i (randbelow (i + 1) st.2).1, (randbelow (i + 1) st.2).2)

/-- The index sequence of random.shuffle: reversed(range(1, n)). -/
def revRange1 (n : ℕ) : List ℕ := (List.range' 1 (n - 1)).reverse

/-- random.shuffle on a list, threading the RNG state. -/
def shuffleMT {α : Type} (s : MTState) (x : List α) : List α × MTState :=
  (revRange1 x.length).foldl shuffleStep (x, s)

/-- The shuffled line list of cell-5: random.seed(42) rebuilds the RNG
state from the constant 42, then random.shuffle permutes the lines. -/
def shuffle42 (l : List String) : List String := (shuffleMT (seedMT 42) l).1

/-- The train/test partition of cell-5: shuffle, then cut at
n_train = int(0.8 * len(lines)). -/
def splitLines (lines : List String) : List String × List String :=
  ((shuffle42 lines).take (nTrainFloat lines.length),
   (shuffle42 lines).drop (nTrainFloat lines.length))

/-- Cell-5 as one invocation of the interpreter: the incoming module RNG
state g is whatever earlier code left behind; random.seed(42) discards it,
so it is unused. The result is the partition pair and the outgoing RNG
state. -/
def splitInvocation ( _g : MTState) (lines : List String) : (List String × List String) × MTState :=
  ((((shuffleMT (seedMT 42) lines).1).take (nTrainFloat lines.length),
    ((shuffleMT (seedMT 42) lines).1).drop (nTrainFloat lines.length)),
   (shuffleMT (seedMT 42) lines).2)

/-! ### Filesystem effect of cell-5 -/

/-- The part of the filesystem cell-5 can read or write: the raw input
file (as its line list, none if absent), the two output files (as raw
contents), and the two directories the cell creates. -/
structure SplitFS where
  raw : Option (List String)
  trainFile : Option String
  testFile : Option String
  trainDir : Bool
  testDir : Bool

/-- The message printed by the else branch of cell-5 (raw_file displays
as its path). -/
def missingMsg : String := "Please create data/finai_raw.jsonl with your collected Q&A pairs first"

/-- File contents written for a partition: its lines newline-joined plus
a trailing newline. -/
def contentOf (xs : List String) : String := String.intercalate "\x0a" xs ++ "\x0a"

/-- Cell-5 end to end: if the raw file exists, shuffle and cut its lines,
create both output directories, write both partition files, and print the
summary line; otherwise print the please-create message and touch nothing.
Both branches return normally (the else branch only prints). -/
def runSplitCell (fs : SplitFS) : SplitFS × String :=
  match fs.raw with
  | none => (fs, missingMsg)
  | some lines =>
    ({ raw := fs.raw,
       trainFile := some (contentOf (splitLines lines).1),
       testFile := some (contentOf (splitLines lines).2),
       trainDir := true,
       testDir := true },
     "Split " ++ toString lines.length ++ " examples into " ++
       toString (splitLines lines).1.length ++ " examples for fine-tuning and " ++
       toString (splitLines lines).2.length ++ " examples for testing")

/-! ### Cell-7 config merger and cell-9 invocation constants -/

/-- One configuration record of lora/finetune_configs.json, with the
eight fields cell-7 writes. The Python float literal 1e-4 denotes a
binary64 value; it is carried here as the decimal rational it was written
as, since no in-scope logic reads it back. -/
structure ConfigRecord where
  base_model : String
  dataset_path : String
  lora_r : ℤ
  quant_bits : ℤ
  learning_rate : ℚ
  num_epochs : ℤ
  batch_size : ℤ
  gradient_accumulation_steps : ℤ
deriving DecidableEq

/-- A JSON object in file order: Python dicts preserve insertion order,
so the mapping is an ordered association list with unique keys. -/
abbrev ConfigMap := List (String × ConfigRecord)

/-- Python d[k] lookup on the association list. -/
def dictLookup (m : ConfigMap) (k : String) : Option ConfigRecord :=
  match m with
  | [] => none
  | (k2, v) :: rest => if k2 = k then some v else dictLookup rest k

/-- Python d[k] = v: overwrite in place if the key exists (keeping its
position), else append at the end. -/
def dictInsert (m : ConfigMap) (k : String) (v : ConfigRecord) : ConfigMap :=
  match m with
  | [] => [(k, v)]
  | (k2, v2) :: rest => if k2 = k then (k, v) :: rest else (k2, v2) :: dictInsert rest k v

/-- The key cell-7 assigns into the configuration mapping. -/
def finaiKey : String := "finai_llama_3_1_8b_8bits_r8_lora"

/-- The value cell-7 assigns: note dataset_path names
competition_train.jsonl, relative to the lora/ directory. -/
def finaiConfig : ConfigRecord :=
  { base_model := "meta-llama/Llama-3.1-8B-Instruct"
    dataset_path := "../data/train/competition_train.jsonl"
    lora_r := 8
    quant_bits := 8
    learning_rate := 1 / 10000
    num_epochs := 4
    batch_size := 2
    gradient_accumulation_steps := 2 }

/-- The config update of cell-7 on a parsed mapping. -/
def mergeConfigs (m : ConfigMap) : ConfigMap := dictInsert m finaiKey finaiConfig

/-- Content of lora/finetune_configs.json as cell-7 sees it: either a
valid JSON mapping of configuration records, or content on which
json.load (or the dict assignment on a non-dict value) raises. -/
inductive ConfigContent where
  | mapping (m : ConfigMap)
  | malformed

inductive MergeError where
  | malformedConfig
deriving DecidableEq

/-- Cell-7 end to end: load, assign, dump. The cell has no exception
handler, so a parse failure propagates as an uncaught error; json.dump
runs only after a successful load, hence the file content is returned
unchanged on the error path. -/
def runMergeCell (c : ConfigContent) : ConfigContent × Option MergeError :=
  match c with
  | .malformed => (.malformed, some .malformedConfig)
  | .mapping m => (.mapping (mergeConfigs m), none)

/-- The positional argument cell-9 passes to finetune.py. -/
def finetuneCliArg : String := "competition_llama_3_1_8b_8bits_r8_lora"

/-- The path cell-5 writes the training partition to, relative to the
FinLoRA checkout root (cell-9 later does cd lora, so a config
dataset_path pointing at this file would read "../" ++ trainOutputPath). -/
def trainOutputPath : String := "data/train/finai_train.jsonl"

/-! ### Helper lemmas: blog and rnd53 -/

theorem blogAux_spec : ∀ f n : ℕ, 1 ≤ n → n < 2 ^ f →
    2 ^ blogAux f n ≤ n ∧ n < 2 ^ (blogAux f n + 1) := by
  intro f
  induction f with
  | zero => intro n h1 h2; simp at h2; omega
  | succ f ih =>
    intro n h1 h2
    by_cases h : n ≤ 1
    · have hn1 : n = 1 := by omega
      subst hn1
      simp [blogAux]
    · have h2' : n / 2 < 2 ^ f := by
        have : (2 : ℕ) ^ (f + 1) = 2 * 2 ^ f := by ring
        omega
      have hrec := ih (n / 2) (by omega) h2'
      simp only [blogAux, if_neg h]
      have e1 : (2 : ℕ) ^ (blogAux f (n / 2) + 1) = 2 * 2 ^ blogAux f (n / 2) := by ring
      have e2 : (2 : ℕ) ^ (blogAux f (n / 2) + 1 + 1) = 4 * 2 ^ blogAux f (n / 2) := by ring
      rw [e1] at hrec ⊢
      rw [e2]
      omega

theorem blog_spec (n : ℕ) (h1 : 1 ≤ n) (h2 : n < 2 ^ blogFuel) :
    2 ^ blog n ≤ n ∧ n < 2 ^ (blog n + 1) :=
  blogAux_spec blogFuel n h1 h2

theorem blog_unique (n b : ℕ) (h1 : 2 ^ b ≤ n) (h2 : n < 2 ^ (b + 1)) (hb : b + 1 ≤ blogFuel) :
    blog n = b := by
  have hn1 : 1 ≤ n := le_trans (Nat.one_le_two_pow) h1
  have hn2 : n < 2 ^ blogFuel := lt_of_lt_of_le h2 (Nat.pow_le_pow_right (by omega) hb)
  have hs := blog_spec n hn1 hn2
  by_contra hne
  rcases Nat.lt_or_ge (blog n) b with hlt | hge
  · have : (2 : ℕ) ^ (blog n + 1) ≤ 2 ^ b := Nat.pow_le_pow_right (by norm_num) (by omega)
    omega
  · have hgt : b < blog n := by omega
    have : (2 : ℕ) ^ (b + 1) ≤ 2 ^ blog n := Nat.pow_le_pow_right (by norm_num) (by omega)
    omega

theorem rnd53_small (m : ℕ) (h : m < 9007199254740992) : rnd53 m = m := by
  simp [rnd53, h]

theorem rnd53_cases (m : ℕ) (h : 9007199254740992 ≤ m) :
    rnd53 m = m / 2 ^ (blog m - 52) * 2 ^ (blog m - 52) ∨
    rnd53 m = (m / 2 ^ (blog m - 52) + 1) * 2 ^ (blog m - 52) := by
  rw [rnd53, if_neg (by omega)]
  split
  · exact Or.inl rfl
  · split
    · exact Or.inr rfl
    · split
      · exact Or.inl rfl
      · exact Or.inr rfl

/-- Core fact about int(0.8 * n): for every n ≤ 2^49 the floating-point
computation lands exactly on floor(4n/5). -/
theorem nTrainFloat_eq (n : ℕ) (hn : n ≤ 2 ^ 49) : nTrainFloat n = 4 * n / 5 := by
  have h49 : (2 : ℕ) ^ 49 = 562949953421312 := by norm_num
  have hn' : n ≤ 562949953421312 := by omega
  have hfl : rnd53 n = n := rnd53_small n (by omega)
  by_cases hsm : n ≤ 2
  · interval_cases n <;> decide
  · -- n ≥ 3, so m = n * floatM ≥ 2^53 and the rounding branch is taken
    set m := n * floatM with hm
    have hMval : floatM = 3602879701896397 := rfl
    have hm53 : 9007199254740992 ≤ m := by
      have : 3 * floatM ≤ m := by
        apply Nat.mul_le_mul_right
        omega
      rw [hMval] at this
      omega
    have hmup : m < 2 ^ 101 := by
      have h1 : m ≤ 562949953421312 * 3602879701896397 := by
        apply Nat.mul_le_mul_right
        exact hn'
      have h2 : (562949953421312 : ℕ) * 3602879701896397 < 2 ^ 101 := by norm_num
      omega
    -- blog bounds
    have hm1 : 1 ≤ m := by omega
    have hmB : m < 2 ^ blogFuel := lt_of_lt_of_le hmup (Nat.pow_le_pow_right (by omega) (by norm_num [blogFuel]))
    have hbs := blog_spec m hm1 hmB
    have hblo : 53 ≤ blog m := by
      by_contra hc
      have : (2 : ℕ) ^ (blog m + 1) ≤ 2 ^ 53 := Nat.pow_le_pow_right (by norm_num) (by omega)
      have h53 : (2 : ℕ) ^ 53 = 9007199254740992 := by norm_num
      omega
    have hbhi : blog m ≤ 100 := by
      by_contra hc
      have : (2 : ℕ) ^ 101 ≤ 2 ^ blog m := Nat.pow_le_pow_right (by norm_num) (by omega)
      omega
    set k := blog m - 52 with hk
    set p := (2 : ℕ) ^ k with hp
    have hppos : 0 < p := Nat.pos_pow_of_pos k (by norm_num)
    have hple : p ≤ 2 ^ 48 := by
      rw [hp]
      exact Nat.pow_le_pow_right (by norm_num) (by omega)
    have h48 : (2 : ℕ) ^ 48 = 281474976710656 := by norm_num
    -- arithmetic identity 5 * m = 4 * n * 2^52 + n
    have h5m : 5 * m = 4 * n * 4503599627370496 + n := by
      rw [hm, hMval]; ring
    set F := 4 * n / 5 with hF
    -- lower bound: F * 2^52 ≤ rnd53 m
    have hFle : F * 4503599627370496 ≤ m := by omega
    have hdvd : p ∣ F * 4503599627370496 := by
      have h52 : (4503599627370496 : ℕ) = 2 ^ 52 := by norm_num
      rw [h52]
      exact Dvd.dvd.mul_left (pow_dvd_pow 2 (by omega)) F
    have hlow : F * 4503599627370496 ≤ m / p * p := by
      calc F * 4503599627370496 = F * 4503599627370496 / p * p := (Nat.div_mul_cancel hdvd).symm
        _ ≤ m / p * p := Nat.mul_le_mul_right p (Nat.div_le_div_right hFle)
    have hup : m / p * p ≤ m := Nat.div_mul_le_self m p
    have hcases := rnd53_cases m hm53
    rw [← hk, ← hp] at hcases
    have hrlow : F * 4503599627370496 ≤ rnd53 m := by
      rcases hcases with hc | hc <;> rw [hc]
      · exact hlow
      · calc F * 4503599627370496 ≤ m / p * p := hlow
          _ ≤ (m / p + 1) * p := by nlinarith
    have hrup : rnd53 m ≤ m + p := by
      rcases hcases with hc | hc <;> rw [hc]
      · omega
      · have : (m / p + 1) * p = m / p * p + p := by ring
        omega
    have hfin : rnd53 m < (F + 1) * 4503599627370496 := by omega
    have : rnd53 m / 4503599627370496 = F := by omega
    rw [nTrainFloat, hfl, ← hm, this]

/-! ### Helper lemmas: shuffle is a permutation -/

theorem cons_set_perm {α : Type} :
    ∀ (t : List α) (m : ℕ) (a b : α), t[m]? = some b →
      (b :: t.set m a).Perm (a :: t) := by
  intro t
  induction t with
  | nil => intro m a b h; simp at h
  | cons c t ih =>
    intro m a b h
    cases m with
    | zero =>
      have hb : c = b := by simpa using h
      subst hb
      simp only [List.set_cons_zero]
      exact List.Perm.swap a c t
    | succ m =>
      simp only [List.getElem?_cons_succ] at h
      simp only [List.set_cons_succ]
      have p1 : (c :: b :: t.set m a).Perm (c :: a :: t) := List.Perm.cons c (ih m a b h)
      exact ((List.Perm.swap c b (t.set m a)).trans p1).trans (List.Perm.swap a c t)

theorem set_set_perm {α : Type} :
    ∀ (l : List α) (i j : ℕ) (a b : α), l[i]? = some a → l[j]? = some b →
      ((l.set i b).set j a).Perm l := by
  intro l
  induction l with
  | nil => intro i j a b hi hj; simp at hi
  | cons c t ih =>
    intro i j a b hi hj
    cases i with
    | zero =>
      have ha : c = a := by simpa using hi
      subst ha
      cases j with
      | zero =>
        simp only [List.set_cons_zero]
        exact List.Perm.refl _
      | succ m =>
        simp only [List.getElem?_cons_succ] at hj
        simp only [List.set_cons_zero, List.set_cons_succ]
        exact cons_set_perm t m c b hj
    | succ m =>
      cases j with
      | zero =>
        have hb : c = b := by simpa using hj
        subst hb
        simp only [List.getElem?_cons_succ] at hi
        simp only [List.set_cons_succ, List.set_cons_zero]
        exact cons_set_perm t m c a hi
      | succ r =>
        simp only [List.getElem?_cons_succ] at hi hj
        simp only [List.set_cons_succ]
        exact List.Perm.cons c (ih m r a b hi hj)

theorem listSwap_perm {α : Type} (l : List α) (i j : ℕ) : (listSwap l i j).Perm l := by
  unfold listSwap
  split
  · next a b hi hj => exact set_set_perm l i j a b hi hj
  · exact List.Perm.refl l

theorem foldl_shuffleStep_perm {α : Type} :
    ∀ (idxs : List ℕ) (st : List α × MTState),
      ((idxs.foldl shuffleStep st).1).Perm st.1 := by
  intro idxs
  induction idxs with
  | nil => intro st; exact List.Perm.refl _
  | cons i rest ih =>
    intro st
    rw [List.foldl_cons]
    exact (ih (shuffleStep st i)).trans (listSwap_perm st.1 i _)

theorem shuffle42_perm (l : List String) : (shuffle42 l).Perm l :=
  foldl_shuffleStep_perm (revRange1 l.length) (l, seedMT 42)

theorem shuffle42_length (l : List String) : (shuffle42 l).length = l.length :=
  (shuffle42_perm l).length_eq

/-! ### Helper lemmas: dict insert -/

theorem dictLookup_insert_self :
    ∀ (m : ConfigMap) (k : String) (v : ConfigRecord),
      dictLookup (dictInsert m k v) k = some v := by
  intro m
  induction m with
  | nil => intro k v; simp [dictInsert, dictLookup]
  | cons e rest ih =>
    obtain ⟨k2, v2⟩ := e
    intro k v
    by_cases h : k2 = k
    · subst h
      simp [dictInsert, dictLookup]
    · simp [dictInsert, h, dictLookup, ih]

theorem dictLookup_insert_ne :
    ∀ (m : ConfigMap) (k q : String) (v : ConfigRecord), q ≠ k →
      dictLookup (dictInsert m k v) q = dictLookup m q := by
  intro m
  induction m with
  | nil =>
    intro k q v h
    have hkq : ¬ (k = q) := fun hh => h hh.symm
    simp [dictInsert, dictLookup, hkq]
  | cons e rest ih =>
    obtain ⟨k2, v2⟩ := e
    intro k q v h
    by_cases he : k2 = k
    · subst he
      have hkq : ¬ (k2 = q) := fun hh => h hh.symm
      simp [dictInsert, dictLookup, hkq]
    · by_cases heq : k2 = q
      · simp [dictInsert, he, dictLookup, heq, h]
      · simp [dictInsert, he, dictLookup, heq, ih k q v h]

theorem dictInsert_idem :
    ∀ (m : ConfigMap) (k : String) (v : ConfigRecord),
      dictInsert (dictInsert m k v) k v = dictInsert m k v := by
  intro m
  induction m with
  | nil => intro k v; simp [dictInsert]
  | cons e rest ih =>
    obtain ⟨k2, v2⟩ := e
    intro k v
    by_cases h : k2 = k
    · subst h
      simp [dictInsert]
    · simp [dictInsert, h, ih]

/-! ### Claim theorems -/

/-- C1: for every input line list, the splitter partitions it: the train
and test lengths sum to the input length, and the multiset union of the
train and test lines equals the multiset of the input lines, so no record
is duplicated or dropped. -/
theorem splitLines_partition (l : List String) :
    (splitLines l).1.length + (splitLines l).2.length = l.length ∧
    ((splitLines l).1 : Multiset String) + ((splitLines l).2 : Multiset String) = (l : Multiset String) := by
  have hperm : ((splitLines l).1 ++ (splitLines l).2).Perm l := by
    simp only [splitLines]
    rw [List.take_append_drop]
    exact shuffle42_perm l
  constructor
  · have h := hperm.length_eq
    simpa [List.length_append] using h
  · rw [Multiset.coe_add]
    exact Multiset.coe_eq_coe.mpr hperm

/-- C2: the notebook violates the claimed interface agreement: the
positional argument cell-9 passes to finetune.py is not the key cell-7
inserted, and the dataset path recorded in the inserted entry is not the
train file path the splitter produced (resolved from the lora/ working
directory, that path would be "../" ++ trainOutputPath). -/
theorem finetune_invocation_mismatch :
    finetuneCliArg ≠ finaiKey ∧ finaiConfig.dataset_path ≠ "../" ++ trainOutputPath := by
  constructor <;> decide

/-- C3 counterexample: at an input of 5629499534213121 lines the
floating-point computation int(0.8 * n) rounds up across the integer
boundary, so the train partition has floor(0.8 * n) + 1 lines, not
floor(0.8 * n). -/
theorem splitLines_large_ratio_counterexample :
    (splitLines (List.replicate 5629499534213121 "x")).1.length ≠ 4 * 5629499534213121 / 5 := by
  have hnt : nTrainFloat 5629499534213121 = 4503599627370497 := by
    have hfl : rnd53 5629499534213121 = 5629499534213121 := rnd53_small _ (by norm_num)
    have hb : blog (5629499534213121 * floatM) = 104 := by
      apply blog_unique
      · norm_num [floatM]
      · norm_num [floatM]
      · norm_num [blogFuel]
    simp only [nTrainFloat, hfl]
    rw [rnd53, if_neg (by norm_num [floatM])]
    rw [hb]
    norm_num [floatM]
  have hlen : (shuffle42 (List.replicate 5629499534213121 "x")).length = 5629499534213121 := by
    rw [shuffle42_length, List.length_replicate]
  simp only [splitLines, List.length_take, hlen, List.length_replicate, hnt]
  omega

/-- C3 amended: for every input of at most 2^49 lines (every physically
realizable dataset), the train partition has exactly floor(0.8 * n) =
4n/5 lines and the test partition the remaining n - 4n/5 lines. -/
theorem splitLines_ratio_bounded (l : List String) (h : l.length ≤ 2 ^ 49) :
    (splitLines l).1.length = 4 * l.length / 5 ∧
    (splitLines l).2.length = l.length - 4 * l.length / 5 := by
  have hnt := nTrainFloat_eq l.length h
  have hlen := shuffle42_length l
  constructor
  · simp only [splitLines, List.length_take, hnt, hlen]
    omega
  · simp only [splitLines, List.length_drop, hnt, hlen]

/-- Witness for C3 amended at a concrete one-line input. -/
theorem splitLines_ratio_bounded_witness :
    (["a"] : List String).length ≤ 2 ^ 49 ∧
    ((splitLines ["a"]).1.length = 4 * (["a"] : List String).length / 5 ∧
     (splitLines ["a"]).2.length = (["a"] : List String).length - 4 * (["a"] : List String).length / 5) :=
  ⟨by norm_num, splitLines_ratio_bounded ["a"] (by norm_num)⟩

/-- C4: if the raw input file is absent, cell-5 leaves the filesystem
untouched (no output files written, no directories created) and returns
normally with the please-create message, a soft failure. -/
theorem runSplitCell_missing_input (fs : SplitFS) (h : fs.raw = none) :
    runSplitCell fs = (fs, missingMsg) := by
  simp [runSplitCell, h]

/-- Witness for C4 at the concrete empty filesystem. -/
theorem runSplitCell_missing_input_witness :
    (⟨none, none, none, false, false⟩ : SplitFS).raw = none ∧
    runSplitCell ⟨none, none, none, false, false⟩ =
      (⟨none, none, none, false, false⟩, missingMsg) :=
  ⟨rfl, runSplitCell_missing_input _ rfl⟩

/-- C5: the config merge inserts exactly the one named entry: the merged
mapping maps the inserted key to the new record, and every other key maps
to exactly what it mapped to before. -/
theorem mergeConfigs_frame :
    (∀ m : ConfigMap, dictLookup (mergeConfigs m) finaiKey = some finaiConfig) ∧
    (∀ (m : ConfigMap) (q : String), q ≠ finaiKey →
      dictLookup (mergeConfigs m) q = dictLookup m q) :=
  ⟨fun m => dictLookup_insert_self m finaiKey finaiConfig,
   fun m q h => dictLookup_insert_ne m finaiKey q finaiConfig h⟩

/-- Witness for C5 on a concrete one-entry mapping and unrelated key. -/
theorem mergeConfigs_frame_witness :
    ("m1" : String) ≠ finaiKey ∧
    dictLookup (mergeConfigs [("m1", finaiConfig)]) "m1" =
      dictLookup [("m1", finaiConfig)] "m1" :=
  ⟨by decide, mergeConfigs_frame.2 [("m1", finaiConfig)] "m1" (by decide)⟩

/-- C6: the split is deterministic: whatever RNG state the interpreter
carries into cell-5 is discarded by random.seed(42), so two invocations
over the same input lines produce identical results. -/
theorem splitInvocation_deterministic (g1 g2 : MTState) (l : List String) :
    splitInvocation g1 l = splitInvocation g2 l := rfl

/-- C7 counterexample: a one-line input has n < 2, yet its test partition
is not empty: int(0.8 * 1) = 0, so the single (shuffled) line lands in
the test partition and the train partition is the empty one. -/
theorem split_singleton_test_nonempty :
    (["x"] : List String).length < 2 ∧ (splitLines ["x"]).2 ≠ [] := by
  constructor
  · norm_num
  · have hnt : nTrainFloat 1 = 0 := by decide
    have hlen : (splitLines ["x"]).2.length = 1 := by
      simp [splitLines, List.length_drop, shuffle42_length, hnt]
    intro hc
    rw [hc] at hlen
    simp at hlen

/-- C7 amended: an empty input yields two empty partitions and both
output files hold exactly one newline; every output file holds its
partition newline-joined with a trailing newline; and for fewer than two
input lines the train partition is empty, while the test partition is
empty only for the empty input. -/
theorem split_small_inputs :
    splitLines [] = ([], []) ∧
    (∀ (fs : SplitFS) (lines : List String), fs.raw = some lines →
      (runSplitCell fs).1.trainFile = some (String.intercalate "\x0a" (splitLines lines).1 ++ "\x0a") ∧
      (runSplitCell fs).1.testFile = some (String.intercalate "\x0a" (splitLines lines).2 ++ "\x0a")) ∧
    (∀ fs : SplitFS, fs.raw = some [] →
      (runSplitCell fs).1.trainFile = some "\x0a" ∧ (runSplitCell fs).1.testFile = some "\x0a") ∧
    (∀ l : List String, l.length < 2 →
      (splitLines l).1 = [] ∧ (l = [] → (splitLines l).2 = [])) := by
  refine ⟨rfl, ?_, ?_, ?_⟩
  · intro fs lines h
    simp [runSplitCell, h, contentOf]
  · intro fs h
    simp [runSplitCell, h, contentOf]
    constructor <;> decide
  · intro l hl
    have h01 : l.length = 0 ∨ l.length = 1 := by omega
    have hnt : nTrainFloat l.length = 0 := by
      rcases h01 with h0 | h1
      · rw [h0]; decide
      · rw [h1]; decide
    constructor
    · simp [splitLines, hnt]
    · intro he
      subst he
      rfl

/-- Witness for C7 amended at the empty-input filesystem and a concrete
one-line input. -/
theorem split_small_inputs_witness :
    (⟨some [], none, none, false, false⟩ : SplitFS).raw = some [] ∧
    (runSplitCell ⟨some [], none, none, false, false⟩).1.trainFile = some "\x0a" ∧
    (["a"] : List String).length < 2 ∧
    (splitLines ["a"]).1 = [] :=
  ⟨rfl, (split_small_inputs.2.2.1 _ rfl).1, by norm_num,
   (split_small_inputs.2.2.2 ["a"] (by norm_num)).1⟩

/-- C8: when the configuration file content is not a valid mapping,
cell-7 fails with the malformed-config error, the error propagates (the
cell has no handler), and the file content is unchanged because the dump
only runs after a successful load. -/
theorem runMergeCell_malformed :
    runMergeCell .malformed = (.malformed, some .malformedConfig) := rfl

/-- C9: the config merge is idempotent: running cell-7 twice on a parsed
mapping yields the same mapping as running it once. -/
theorem mergeConfigs_idempotent (m : ConfigMap) :
    mergeConfigs (mergeConfigs m) = mergeConfigs m :=
  dictInsert_idem m finaiKey finaiConfig

/-- C10: the concatenation of the train partition followed by the test
partition, in file order, is exactly the seed-42 shuffle of the input
lines: the output order is fully determined by the shuffle. -/
theorem split_concat_eq_shuffle (l : List String) :
    (splitLines l).1 ++ (splitLines l).2 = shuffle42 l := by
  simp only [splitLines]
  exact List.take_append_drop _ _
